import Mathlib

/-!
Shallow embedding of `src/services/storageService.ts` from the
Nanobanana-Prompt-Library repository, together with proofs checking the
specification's claims about the persistence / backup / import-export layer.

Modelling conventions:

* `localStorage` is modelled by `Store`: an optional blob for the primary
  key (`nanobanana_prompts_v1`), an optional blob for the backup key
  (`nanobanana_prompts_backup`), and a flag `readFails` that makes every
  `localStorage.getItem` call throw (the "storage unreadable" case the
  source guards with `try/catch`).  A stored blob is either the JSON
  serialization of a collection (`Blob.coll ps`, which `JSON.parse` turns
  back into `ps`) or text on which `JSON.parse` throws (`Blob.corrupt`).
  The empty string behaves exactly like an absent key in every function of
  the source (it is falsy and never written), so `none` covers it.
* JSON values are modelled by `Json`; numbers are modelled by `Int`
  (the only numeric fields in play are millisecond timestamps).
  `JSON.parse` of the import text is a platform primitive, so the parse
  outcome is the model's input: `none` for text on which `JSON.parse`
  throws, `some j` for text parsing to the value `j`.
* JavaScript property access `p.k` yields `undefined` (modelled `none`)
  on every non-object except `null`, on which it throws a TypeError.
* `PromptData` follows the TypeScript interface (plus the optional
  `useCases` field the service reads and writes); import entries whose
  declared-string fields hold truthy non-string JSON are outside the
  embedding and make `safePrompt` return `none`.
* `Date.now()` and `Date#toLocaleDateString` are environment inputs and
  are passed as parameters (`now`, `localeDate`).
* `Array.prototype.sort` with comparator `(a, b) => b.updatedAt - a.updatedAt`
  is the stable descending sort on `updatedAt` (ECMAScript sort is
  stable), modelled by the stable `List.insertionSort` with the relation
  `updDesc a b := b.updatedAt ≤ a.updatedAt`.
-/

/-- JSON values as produced by `JSON.parse`; numbers restricted to `Int`. -/
inductive Json where
  | null : Json
  | bool (b : Bool) : Json
  | num (n : Int) : Json
  | str (s : String) : Json
  | arr (elems : List Json) : Json
  | obj (fields : List (String × Json)) : Json

/-- Key lookup in a parsed JSON object.  `JSON.parse` keeps the last
occurrence of a duplicated key, hence the fold taking the last match. -/
def lookupField (fields : List (String × Json)) (k : String) : Option Json :=
  fields.foldl (fun acc kv => if kv.1 = k then some kv.2 else acc) none

/-- JavaScript property access `p.k` restricted to data properties:
`undefined` (`none`) on objects lacking the key and on all non-object
non-null primitives.  (Access on `null` throws; `jsGetField` covers that.) -/
def fieldOf (p : Json) (k : String) : Option Json :=
  match p with
  | .obj fs => lookupField fs k
  | _ => none

/-- JavaScript truthiness of a possibly-`undefined` JSON value. -/
def jsTruthy : Option Json → Bool
  | none => false
  | some .null => false
  | some (.bool b) => b
  | some (.num n) => n ≠ 0
  | some (.str s) => s ≠ ""
  | some (.arr _) => true
  | some (.obj _) => true

/-- A prompt record, per `src/types.ts` plus the optional `useCases`
field read and written by `storageService.ts`.  `sourceLink` and
`useCases` are optional (`undefined` when absent). -/
structure PromptData where
  id : String
  title : String
  content : String
  breakdown : String
  tags : List String
  useCases : Option (List String)
  sourceLink : Option String
  createdAt : Int
  updatedAt : Int
deriving Repr, DecidableEq

/-- A value held under a `localStorage` key: either the JSON text of a
collection (parsing back to it) or text on which `JSON.parse` throws. -/
inductive Blob where
  | coll (ps : List PromptData) : Blob
  | corrupt : Blob
deriving Repr, DecidableEq

/-- The `localStorage` state seen by the service: primary slot
(`nanobanana_prompts_v1`), backup slot (`nanobanana_prompts_backup`),
and whether `getItem` throws. -/
structure Store where
  primary : Option Blob
  backup : Option Blob
  readFails : Bool
deriving Repr, DecidableEq

/-- `localStorage.getItem(STORAGE_KEY)`; `.error` models a thrown exception. -/
def Store.getPrimaryItem (st : Store) : Except Unit (Option Blob) :=
  if st.readFails then .error () else .ok st.primary

/-- `localStorage.getItem(BACKUP_KEY)`; `.error` models a thrown exception. -/
def Store.getBackupItem (st : Store) : Except Unit (Option Blob) :=
  if st.readFails then .error () else .ok st.backup

/-- `getPrompts`: read the primary blob, parse it, and return `[]` when the
key is absent, the read throws, or `JSON.parse` throws (the `catch` branch). -/
def getPrompts (st : Store) : List PromptData :=
  match st.getPrimaryItem with
  | .error _ => []
  | .ok none => []
  | .ok (some (.coll ps)) => ps
  | .ok (some .corrupt) => []

/-- `createBackup`: copy the current primary blob verbatim to the backup
slot, only if one exists; any exception is caught and ignored. -/
def createBackup (st : Store) : Store :=
  match st.getPrimaryItem with
  | .error _ => st
  | .ok none => st
  | .ok (some b) => { st with backup := some b }

/-- JavaScript `Array.prototype.findIndex`, as an `Option`-valued index
(the source only compares the result with `>= 0`). -/
def findIndexOpt {α : Type} (p : α → Bool) : List α → Option Nat
  | [] => none
  | a :: l => if p a then some 0 else (findIndexOpt p l).map (· + 1)

/-- `savePrompt`: back up, then replace the first record with the same `id`
in place, or prepend when no record has the `id`; persist and return the
updated collection. -/
def savePrompt (st : Store) (prompt : PromptData) : Store × List PromptData :=
  let st1 := createBackup st
  let current := getPrompts st1
  let updated :=
    match findIndexOpt (fun p => p.id = prompt.id) current with
    | some i => current.set i prompt
    | none => prompt :: current
  ({ st1 with primary := some (.coll updated) }, updated)

/-- `savePrompts`: back up, then overwrite the whole collection. -/
def savePrompts (st : Store) (prompts : List PromptData) : Store :=
  let st1 := createBackup st
  { st1 with primary := some (.coll prompts) }

/-- `deletePrompt`: back up, filter out records with the given `id`,
persist and return the filtered collection. -/
def deletePrompt (st : Store) (id : String) : Store × List PromptData :=
  let st1 := createBackup st
  let current := getPrompts st1
  let updated := current.filter (fun p => p.id ≠ id)
  ({ st1 with primary := some (.coll updated) }, updated)

/-- `hasBackup`: `!!localStorage.getItem(BACKUP_KEY)`; not guarded by
`try/catch`, so a failing read propagates. -/
def hasBackup (st : Store) : Except Unit Bool :=
  match st.getBackupItem with
  | .error e => .error e
  | .ok b => .ok b.isSome

/-- `restoreFromBackup`: copy the backup blob into the primary slot and
return its parsed contents, or `[]` if no backup exists.  The copy happens
before the parse, so a corrupt backup overwrites the primary slot and then
throws; the final state is returned together with the outcome. -/
def restoreFromBackup (st : Store) : Store × Except Unit (List PromptData) :=
  match st.getBackupItem with
  | .error _ => (st, .error ())
  | .ok none => (st, .ok [])
  | .ok (some (.coll ps)) => ({ st with primary := some (.coll ps) }, .ok ps)
  | .ok (some .corrupt) => ({ st with primary := some .corrupt }, .error ())

/-- The JSON value of one record as written by `JSON.stringify` in
`savePrompt` / `importData` / `exportData` (a property whose value is
`undefined` is omitted from the output). -/
def promptToJson (p : PromptData) : Json :=
  .obj ([("id", .str p.id), ("title", .str p.title), ("content", .str p.content),
         ("breakdown", .str p.breakdown), ("tags", .arr (p.tags.map .str))]
    ++ (match p.useCases with
        | some us => [("useCases", .arr (us.map .str))]
        | none => [])
    ++ (match p.sourceLink with
        | some s => [("sourceLink", .str s)]
        | none => [])
    ++ [("createdAt", .num p.createdAt), ("updatedAt", .num p.updatedAt)])

/-- `exportData`, up to the parse of its pretty-printed text:
`JSON.stringify(data, null, 2)` produces text that parses back to the
JSON array of the current collection. -/
def exportData (st : Store) : Json :=
  .arr ((getPrompts st).map promptToJson)

/-- Errors thrown by `importData`.  `unmodelled` flags an entry whose
declared-string field holds a truthy non-string JSON value, which the
embedding does not cover. -/
inductive ImpErr where
  | parseFailure : ImpErr
  | notArray : ImpErr
  | typeErr : ImpErr
  | noValidPrompts : ImpErr
  | unmodelled : ImpErr
deriving Repr, DecidableEq

/-- JavaScript property access `p.k` including the thrown TypeError on
`null` (`JSON.parse` never yields `undefined`, so bases are never that). -/
def jsGetField (p : Json) (k : String) : Except ImpErr (Option Json) :=
  match p with
  | .null => .error .typeErr
  | _ => .ok (fieldOf p k)

/-- The filter predicate `p => p.id && p.content`, with JavaScript
short-circuiting: `p.content` is only read when `p.id` is truthy. -/
def entryValid (p : Json) : Except ImpErr Bool := do
  let i ← jsGetField p "id"
  if jsTruthy i then
    let c ← jsGetField p "content"
    pure (jsTruthy c)
  else
    pure false

/-- `parsed.filter(p => p.id && p.content)`, propagating a thrown
TypeError from the first offending element. -/
def filterValid : List Json → Except ImpErr (List Json)
  | [] => .ok []
  | p :: rest => do
    let b ← entryValid p
    let others ← filterValid rest
    pure (if b then p :: others else others)

/-- Required-string field of an import entry (`id`, `content`): the
embedding covers string values only. -/
def reqStr (f : Option Json) : Option String :=
  match f with
  | some (.str s) => some s
  | _ => none

/-- `p.title || 'Untitled Prompt'` (and `p.breakdown || ''`): the field
itself when truthy, the default when falsy or absent. -/
def strOrDefault (dflt : String) (f : Option Json) : Option String :=
  if jsTruthy f then
    match f with
    | some (.str s) => some s
    | _ => none
  else some dflt

/-- Extract a string list from JSON array elements; `none` when an
element is not a string (outside the embedding). -/
def allStrs : List Json → Option (List String)
  | [] => some []
  | .str s :: rest => (allStrs rest).map (fun t => s :: t)
  | _ => none

/-- `Array.isArray(f) ? f : []`, with all elements strings. -/
def strArrOrEmpty (f : Option Json) : Option (List String) :=
  match f with
  | some (.arr xs) => allStrs xs
  | _ => some []

/-- `sourceLink: p.sourceLink`, copied verbatim; absent stays absent. -/
def linkOf (f : Option Json) : Option (Option String) :=
  match f with
  | none => some none
  | some (.str s) => some (some s)
  | _ => none

/-- `p.createdAt || Date.now()`: the numeric field when truthy (non-zero),
the current time when falsy or absent. -/
def timeOrNow (now : Int) (f : Option Json) : Option Int :=
  if jsTruthy f then
    match f with
    | some (.num n) => some n
    | _ => none
  else some now

/-- The normalized record `safePrompt` built for each validated import
entry, filling defaults for missing optional fields.  `none` marks an
entry outside the embedding (truthy non-string/ized field). -/
def safePrompt (now : Int) (p : Json) : Option PromptData := do
  let i ← reqStr (fieldOf p "id")
  let c ← reqStr (fieldOf p "content")
  let t ← strOrDefault "Untitled Prompt" (fieldOf p "title")
  let b ← strOrDefault "" (fieldOf p "breakdown")
  let tg ← strArrOrEmpty (fieldOf p "tags")
  let uc ← strArrOrEmpty (fieldOf p "useCases")
  let sl ← linkOf (fieldOf p "sourceLink")
  let ca ← timeOrNow now (fieldOf p "createdAt")
  let ua ← timeOrNow now (fieldOf p "updatedAt")
  pure ⟨i, t, c, b, tg, some uc, sl, ca, ua⟩

/-- Association-list model of a JavaScript `Map` keyed by record id:
insertion order is preserved, `set` on a present key updates in place,
`set` on an absent key appends. -/
abbrev PMap := List (String × PromptData)

/-- `Map.prototype.has`. -/
def pmapHas (m : PMap) (k : String) : Bool :=
  m.any (fun kv => kv.1 = k)

/-- `Map.prototype.set`. -/
def pmapSet (m : PMap) (k : String) (v : PromptData) : PMap :=
  if pmapHas m k then m.map (fun kv => if kv.1 = k then (k, v) else kv)
  else m ++ [(k, v)]

/-- `new Map(currentPrompts.map(p => [p.id, p]))`: sequential insertion. -/
def pmapOfPrompts (ps : List PromptData) : PMap :=
  ps.foldl (fun m p => pmapSet m p.id p) []

/-- The `validRaw.forEach` loop of `importData`: build `safePrompt` for
each entry, count it as updated or added, and write it into the map. -/
def importLoop (now : Int) : List Json → PMap → Nat → Nat →
    Option (PMap × Nat × Nat)
  | [], m, a, u => some (m, a, u)
  | p :: rest, m, a, u =>
    match safePrompt now p with
    | none => none
    | some sp =>
      if pmapHas m sp.id then importLoop now rest (pmapSet m sp.id sp) a (u + 1)
      else importLoop now rest (pmapSet m sp.id sp) (a + 1) u

/-- Import statistics returned by `importData`. -/
structure ImportStats where
  added : Nat
  updated : Nat
deriving Repr, DecidableEq

/-- Descending-`updatedAt` ordering used by
`merged.sort((a, b) => b.updatedAt - a.updatedAt)`. -/
def updDesc (a b : PromptData) : Prop :=
  b.updatedAt ≤ a.updatedAt

instance : DecidableRel updDesc :=
  fun a b => inferInstanceAs (Decidable (b.updatedAt ≤ a.updatedAt))

instance : IsTotal PromptData updDesc :=
  ⟨fun a b => le_total b.updatedAt a.updatedAt⟩

instance : IsTrans PromptData updDesc :=
  ⟨fun _ _ _ h1 h2 => le_trans h2 h1⟩

/-- `importData`: parse (given as the parse outcome `raw`), check the
array shape, filter invalid entries, reject a non-empty input with no
valid entries, back up, merge by id into the current collection, sort
descending by `updatedAt`, persist, and return collection and stats.
The final store is returned alongside the outcome, since a throw after
`createBackup` leaves the backup written. -/
def importData (now : Int) (raw : Option Json) (st : Store) :
    Store × Except ImpErr (List PromptData × ImportStats) :=
  match raw with
  | none => (st, .error .parseFailure)
  | some (.arr parsed) =>
    match filterValid parsed with
    | .error e => (st, .error e)
    | .ok validRaw =>
      if validRaw.length = 0 ∧ parsed.length > 0 then
        (st, .error .noValidPrompts)
      else
        let st1 := createBackup st
        let currentPrompts := getPrompts st1
        match importLoop now validRaw (pmapOfPrompts currentPrompts) 0 0 with
        | none => (st1, .error .unmodelled)
        | some (m, added, updated) =>
          let merged := List.insertionSort updDesc (m.map Prod.snd)
          ({ st1 with primary := some (.coll merged) },
           .ok (merged, ⟨added, updated⟩))
  | some _ => (st, .error .notArray)

/-- The quote-doubling of `str.replace(/"/g, '""')`, on character lists. -/
def dqChars : List Char → List Char
  | [] => []
  | c :: cs => if c = '"' then '"' :: '"' :: dqChars cs else c :: dqChars cs

/-- The `escape` helper of `exportAsCsv`: falsy input (absent field or
empty string) gives an empty quoted cell, otherwise the text is wrapped
in double quotes with internal double quotes doubled. -/
def csvEscape (t : Option String) : String :=
  match t with
  | none => "\"\""
  | some s => if s = "" then "\"\"" else "\"" ++ ⟨dqChars s.data⟩ ++ "\""

/-- The cell for `useCases`: `p.useCases?.join('\n') || ''`. -/
def useCasesCell (uc : Option (List String)) : String :=
  match uc with
  | some us => String.intercalate "\n" us
  | none => ""

/-- One CSV data row of `exportAsCsv`. -/
def csvRow (localeDate : Int → String) (p : PromptData) : String :=
  String.intercalate ","
    [csvEscape (some p.title),
     csvEscape (some p.content),
     csvEscape (some p.breakdown),
     csvEscape (some (String.intercalate ", " p.tags)),
     csvEscape (some (useCasesCell p.useCases)),
     csvEscape p.sourceLink,
     csvEscape (some (localeDate p.createdAt))]

/-- The CSV header row: `headers.join(',')`. -/
def csvHeader : String :=
  String.intercalate ","
    ["Title", "Prompt Content", "Breakdown", "Tags", "Use Cases",
     "Source Link", "Created Date"]

/-- `exportAsCsv`: BOM, header row, one row per record, joined by `'\n'`.
`toLocaleDateString` is environment-dependent and passed as `localeDate`. -/
def exportAsCsv (localeDate : Int → String) (st : Store) : String :=
  let prompts := getPrompts st
  "\uFEFF" ++ String.intercalate "\n" (csvHeader :: prompts.map (csvRow localeDate))

/-- A mutating Record Store operation (upsert, replace-all, remove, import). -/
inductive MutOp where
  | save (p : PromptData) : MutOp
  | saveAll (ps : List PromptData) : MutOp
  | del (i : String) : MutOp
  | imp (now : Int) (raw : Option Json) : MutOp

/-- Run a mutating operation; `none` when it throws (a failed import). -/
def applyMut : MutOp → Store → Option Store
  | .save p, st => some (savePrompt st p).1
  | .saveAll ps, st => some (savePrompts st ps)
  | .del i, st => some (deletePrompt st i).1
  | .imp now raw, st =>
    match importData now raw st with
    | (st2, .ok _) => some st2
    | (_, .error _) => none

/-- Spec-side cell quoting, following the claim: the field is wrapped in
double quotes with every internal double quote doubled. -/
def quoteCell (s : String) : String :=
  "\"" ++ ⟨dqChars s.data⟩ ++ "\""

/-- Spec-side header row: the seven column titles, comma-separated. -/
def csvSpecHeader : String :=
  "Title,Prompt Content,Breakdown,Tags,Use Cases,Source Link,Created Date"

/-- Spec-side data row, following the claim: every field quoted, `tags`
joined with a comma and space, `useCases` joined with newlines in one
cell, absent `sourceLink` an empty cell, `createdAt` via `localeDate`. -/
def csvSpecRow (localeDate : Int → String) (p : PromptData) : String :=
  String.intercalate ","
    ([p.title, p.content, p.breakdown,
      String.intercalate ", " p.tags,
      String.intercalate "\n" (p.useCases.getD []),
      p.sourceLink.getD "",
      localeDate p.createdAt].map quoteCell)

/-- Spec-side CSV document: BOM, header row, one row per record. -/
def csvSpec (localeDate : Int → String) (st : Store) : String :=
  "\uFEFF" ++
    String.intercalate "\n"
      (csvSpecHeader :: (getPrompts st).map (csvSpecRow localeDate))

/-- Body of a compliant CSV reader's quoted-cell parse: consume until the
closing quote, reading each doubled quote as one literal quote; reject
text after the closing quote and unterminated cells. -/
def readQuotedAux : List Char → Option (List Char)
  | [] => none
  | c :: cs =>
    if c = '"' then
      match cs with
      | [] => some []
      | c2 :: cs2 =>
        if c2 = '"' then (readQuotedAux cs2).map (fun t => '"' :: t)
        else none
    else (readQuotedAux cs).map (fun t => c :: t)

/-- A compliant CSV reader's parse of one full quoted cell. -/
def readQuoted (s : List Char) : Option (List Char) :=
  match s with
  | '"' :: rest => readQuotedAux rest
  | _ => none

/-- Sample record with id `a`. -/
def rA : PromptData := ⟨"a", "Alpha", "body a", "", [], none, none, 1, 1⟩

/-- Sample record with id `b`. -/
def rB : PromptData := ⟨"b", "Beta", "body b", "", [], none, none, 2, 2⟩

/-- Replacement for `rA` under the same id. -/
def rA2 : PromptData := ⟨"a", "Alpha v2", "body a2", "", [], none, none, 1, 3⟩

/-- First of two records sharing the id `d`. -/
def rDup1 : PromptData := ⟨"d", "Dup one", "body d1", "", [], none, none, 4, 4⟩

/-- Second of two records sharing the id `d`. -/
def rDup2 : PromptData := ⟨"d", "Dup two", "body d2", "", [], none, none, 3, 3⟩

/-- Record whose `title` is the empty string (falsy in JavaScript). -/
def rT : PromptData := ⟨"t", "", "body t", "", [], some [], none, 1, 1⟩

/-- The record produced by importing `[{"id":"x","content":"hello"}]`
at time 5: every optional field filled with its default. -/
def spX : PromptData := ⟨"x", "Untitled Prompt", "hello", "", [], some [], none, 5, 5⟩

/-- The entry `{"id":"x","content":"hello"}`. -/
def entryX : Json := .obj [("id", .str "x"), ("content", .str "hello")]

/-- Whether a JSON value is an array (`Array.isArray`). -/
def Json.isArr : Json → Bool
  | .arr _ => true
  | _ => false

instance {ε α : Type} [DecidableEq ε] [DecidableEq α] :
    DecidableEq (Except ε α) := fun a b =>
  match a, b with
  | .error e, .error f =>
    if h : e = f then .isTrue (h ▸ rfl)
    else .isFalse (fun hh => h (by injection hh))
  | .ok x, .ok y =>
    if h : x = y then .isTrue (h ▸ rfl)
    else .isFalse (fun hh => h (by injection hh))
  | .error _, .ok _ => .isFalse (fun hh => Except.noConfusion hh)
  | .ok _, .error _ => .isFalse (fun hh => Except.noConfusion hh)

lemma findIndexOpt_eq_none {α : Type} (p : α → Bool) (l : List α)
    (h : ∀ x ∈ l, p x = false) : findIndexOpt p l = none := by
  induction l with
  | nil => rfl
  | cons a t ih =>
    have ha := h a (by simp)
    simp [findIndexOpt, ha, ih (fun x hx => h x (by simp [hx]))]

lemma findIndexOpt_eq_some {α : Type} (p : α → Bool) :
    ∀ (l : List α) (i : Nat) (hi : i < l.length),
      p (l.get ⟨i, hi⟩) = true →
      (∀ j (hj : j < i), p (l.get ⟨j, Nat.lt_trans hj hi⟩) = false) →
      findIndexOpt p l = some i := by
  intro l
  induction l with
  | nil => intro i hi; exact absurd hi (by simp)
  | cons a t ih =>
    intro i hi hp hmin
    match i with
    | 0 => simp at hp; simp [findIndexOpt, hp]
    | k + 1 =>
      have h0 : p a = false := by simpa using hmin 0 (Nat.succ_pos k)
      have ht : findIndexOpt p t = some k := by
        refine ih k (by simpa using Nat.lt_of_succ_lt_succ hi) (by simpa using hp) ?_
        intro j hj
        simpa using hmin (j + 1) (Nat.succ_lt_succ hj)
      simp [findIndexOpt, h0, ht]

/-- C2: `savePrompt` (upsert) with a fresh id prepends the record and grows
the collection by one; with an existing id it replaces the record at the
position of the old record with that id, leaving every other record in
place and the length unchanged; the result is persisted as the new primary
collection. -/
theorem savePrompt_upsert (ps : List PromptData) (b : Option Blob) (r : PromptData) :
    ((∀ p ∈ ps, p.id ≠ r.id) →
       (savePrompt ⟨some (.coll ps), b, false⟩ r).2 = r :: ps ∧
       (savePrompt ⟨some (.coll ps), b, false⟩ r).2.length = ps.length + 1) ∧
    (∀ i (hi : i < ps.length),
       (ps.get ⟨i, hi⟩).id = r.id →
       (∀ j (hj : j < i), (ps.get ⟨j, Nat.lt_trans hj hi⟩).id ≠ r.id) →
       (savePrompt ⟨some (.coll ps), b, false⟩ r).2 = ps.set i r ∧
       (savePrompt ⟨some (.coll ps), b, false⟩ r).2.length = ps.length) ∧
    (savePrompt ⟨some (.coll ps), b, false⟩ r).1.primary
      = some (.coll (savePrompt ⟨some (.coll ps), b, false⟩ r).2) := by
  refine ⟨?_, ?_, rfl⟩
  · intro hfresh
    have hnone : findIndexOpt (fun p => p.id = r.id) ps = none :=
      findIndexOpt_eq_none _ _ (fun x hx => by simpa using hfresh x hx)
    constructor
    · simp [savePrompt, createBackup, getPrompts, Store.getPrimaryItem, hnone]
    · simp [savePrompt, createBackup, getPrompts, Store.getPrimaryItem, hnone]
  · intro i hi hp hmin
    have hsome : findIndexOpt (fun p => p.id = r.id) ps = some i := by
      refine findIndexOpt_eq_some _ ps i hi (by simpa using hp) ?_
      intro j hj
      simpa using hmin j hj
    constructor
    · simp [savePrompt, createBackup, getPrompts, Store.getPrimaryItem, hsome]
    · simp [savePrompt, createBackup, getPrompts, Store.getPrimaryItem, hsome]

/-- Witness for C2 at concrete inputs: prepending `rB` to `[rA]`, and
replacing `rA` by `rA2` in `[rA, rB]` in place. -/
theorem savePrompt_upsert_witness :
    (savePrompt ⟨some (.coll [rA]), none, false⟩ rB).2 = [rB, rA] ∧
    (savePrompt ⟨some (.coll [rA, rB]), none, false⟩ rA2).2 = [rA2, rB] := by
  constructor
  · exact ((savePrompt_upsert [rA] none rB).1 (by decide)).1
  · have h := ((savePrompt_upsert [rA, rB] none rA2).2.1 0 (by decide)
      (by decide) (fun j hj => absurd hj (Nat.not_lt_zero j))).1
    simpa using h

/-- C6: `getPrompts` (list) never raises: it returns the parsed collection
when the primary blob parses, and the empty sequence when the key is
absent, the blob is corrupt (`JSON.parse` throws), or the read itself
fails. -/
theorem getPrompts_never_raises (st : Store) (ps : List PromptData) :
    (st.readFails = false → st.primary = some (.coll ps) → getPrompts st = ps) ∧
    (st.readFails = true → getPrompts st = []) ∧
    (st.primary = none → getPrompts st = []) ∧
    (st.readFails = false → st.primary = some .corrupt → getPrompts st = []) := by
  obtain ⟨p, b, r⟩ := st
  refine ⟨?_, ?_, ?_, ?_⟩
  · rintro rfl rfl; rfl
  · rintro rfl; rfl
  · rintro rfl; cases r <;> rfl
  · rintro rfl rfl; rfl

/-- Witness for C6: the three degraded cases and the parsing case at
concrete stores. -/
theorem getPrompts_never_raises_witness :
    getPrompts ⟨some (.coll [rA]), none, false⟩ = [rA] ∧
    getPrompts ⟨some (.coll [rA]), none, true⟩ = [] ∧
    getPrompts ⟨none, none, false⟩ = [] ∧
    getPrompts ⟨some .corrupt, none, false⟩ = [] := by
  refine ⟨?_, ?_, ?_, ?_⟩
  · exact (getPrompts_never_raises ⟨some (.coll [rA]), none, false⟩ [rA]).1 rfl rfl
  · exact (getPrompts_never_raises ⟨some (.coll [rA]), none, true⟩ []).2.1 rfl
  · exact (getPrompts_never_raises ⟨none, none, false⟩ []).2.2.1 rfl
  · exact (getPrompts_never_raises ⟨some .corrupt, none, false⟩ []).2.2.2 rfl rfl

/-- C7: `deletePrompt` (remove) of an id matching no record backs up the
collection and persists and returns a collection identical in content,
order and length to the input. -/
theorem deletePrompt_missing_id (ps : List PromptData) (b : Option Blob) (i : String)
    (hid : ∀ p ∈ ps, p.id ≠ i) :
    deletePrompt ⟨some (.coll ps), b, false⟩ i =
      (⟨some (.coll ps), some (.coll ps), false⟩, ps) := by
  have hfilter : ps.filter (fun p => p.id ≠ i) = ps :=
    List.filter_eq_self.mpr (fun p hp => by simpa using hid p hp)
  simp [deletePrompt, createBackup, getPrompts, Store.getPrimaryItem, hfilter]
  exact hid

/-- Witness for C7: removing the absent id `z` from `[rA, rB]`. -/
theorem deletePrompt_missing_id_witness :
    deletePrompt ⟨some (.coll [rA, rB]), none, false⟩ "z" =
      (⟨some (.coll [rA, rB]), some (.coll [rA, rB]), false⟩, [rA, rB]) :=
  deletePrompt_missing_id [rA, rB] none "z" (by decide)

/-- C10: `restoreFromBackup` never modifies the backup slot, `hasBackup`
is unchanged by it, and running it a second time with no intervening
mutation returns the same outcome and leaves the same store state. -/
theorem restoreFromBackup_idempotent (st : Store) :
    (restoreFromBackup st).1.backup = st.backup ∧
    hasBackup (restoreFromBackup st).1 = hasBackup st ∧
    restoreFromBackup (restoreFromBackup st).1 = restoreFromBackup st := by
  obtain ⟨p, b, r⟩ := st
  cases r
  · cases b with
    | none => exact ⟨rfl, rfl, rfl⟩
    | some bl => cases bl <;> exact ⟨rfl, rfl, rfl⟩
  · exact ⟨rfl, rfl, rfl⟩

lemma importData_ok_state (now : Int) (raw : Option Json) (st st2 : Store)
    (out : List PromptData × ImportStats)
    (h : importData now raw st = (st2, .ok out)) :
    ∃ merged, st2 = { createBackup st with primary := some (.coll merged) } := by
  simp only [importData] at h
  split at h
  · exact Except.noConfusion (congrArg Prod.snd h)
  · split at h
    · exact Except.noConfusion (congrArg Prod.snd h)
    · split at h
      · exact Except.noConfusion (congrArg Prod.snd h)
      · split at h
        · exact Except.noConfusion (congrArg Prod.snd h)
        · exact ⟨_, (congrArg Prod.fst h).symm⟩
  · exact Except.noConfusion (congrArg Prod.snd h)

/-- C1 counterexample: with an empty primary slot and no backup, a
`savePrompt` takes no snapshot, so the following `restore()` returns `[]`
but leaves the primary slot holding the post-mutation collection `[rA]`
instead of the pre-mutation (empty) one. -/
theorem restore_after_mutation_counterexample :
    getPrompts ⟨none, none, false⟩ = [] ∧
    (restoreFromBackup (savePrompt ⟨none, none, false⟩ rA).1).2 = .ok [] ∧
    getPrompts (restoreFromBackup (savePrompt ⟨none, none, false⟩ rA).1).1 = [rA] := by
  decide

/-- C1 (amended): for every store whose primary slot holds a blob parsing
to the pre-mutation collection, after any successful mutating operation a
`restoreFromBackup` with no intervening mutation returns exactly the
pre-mutation collection and leaves the primary slot holding it. -/
theorem restore_returns_backedup_collection (st : Store) (ps : List PromptData)
    (op : MutOp) (st2 : Store)
    (hp : st.primary = some (.coll ps)) (hr : st.readFails = false)
    (hop : applyMut op st = some st2) :
    (restoreFromBackup st2).2 = .ok ps ∧
    (restoreFromBackup st2).1.primary = some (.coll ps) ∧
    getPrompts (restoreFromBackup st2).1 = ps := by
  obtain ⟨p, b, r⟩ := st
  simp only at hp hr
  subst hp; subst hr
  have key : st2.backup = some (Blob.coll ps) ∧ st2.readFails = false := by
    cases op with
    | save p' =>
      have h2 : st2 = (savePrompt ⟨some (.coll ps), b, false⟩ p').1 :=
        (Option.some.inj hop).symm
      subst h2
      exact ⟨rfl, rfl⟩
    | saveAll qs =>
      have h2 : st2 = savePrompts ⟨some (.coll ps), b, false⟩ qs :=
        (Option.some.inj hop).symm
      subst h2
      exact ⟨rfl, rfl⟩
    | del i =>
      have h2 : st2 = (deletePrompt ⟨some (.coll ps), b, false⟩ i).1 :=
        (Option.some.inj hop).symm
      subst h2
      exact ⟨rfl, rfl⟩
    | imp now raw =>
      simp only [applyMut] at hop
      rcases hi : importData now raw ⟨some (.coll ps), b, false⟩ with ⟨st3, res⟩
      rw [hi] at hop
      cases res with
      | error e => exact Option.noConfusion hop
      | ok o =>
        injection hop with h2
        subst h2
        obtain ⟨merged, hm⟩ :=
          importData_ok_state now raw ⟨some (.coll ps), b, false⟩ _ o hi
        rw [hm]
        exact ⟨rfl, rfl⟩
  obtain ⟨hb, hrf⟩ := key
  obtain ⟨p2, b2, r2⟩ := st2
  simp only at hb hrf
  subst hb; subst hrf
  exact ⟨rfl, rfl, rfl⟩

/-- Witness for C1 (amended): upserting `rB` into a store holding `[rA]`
and then restoring yields `[rA]` again, both as the returned value and in
the primary slot. -/
theorem restore_returns_backedup_collection_witness :
    (restoreFromBackup (savePrompt ⟨some (.coll [rA]), none, false⟩ rB).1).2 = .ok [rA] ∧
    getPrompts (restoreFromBackup (savePrompt ⟨some (.coll [rA]), none, false⟩ rB).1).1 = [rA] := by
  have h := restore_returns_backedup_collection ⟨some (.coll [rA]), none, false⟩ [rA]
    (.save rB) (savePrompt ⟨some (.coll [rA]), none, false⟩ rB).1 rfl rfl rfl
  exact ⟨h.1, h.2.2⟩

lemma except_bind_ok {ε α β : Type} (a : α) (f : α → Except ε β) :
    (do let x ← (Except.ok a : Except ε α); f x) = f a := rfl

lemma except_pure_eq {ε α : Type} (a : α) :
    (pure a : Except ε α) = Except.ok a := rfl

lemma except_bind_error {ε α β : Type} (e : ε) (f : α → Except ε β) :
    (do let x ← (Except.error e : Except ε α); f x) = Except.error e := rfl

lemma entryValid_nonnull (e : Json) (h : e ≠ .null) :
    entryValid e = .ok (jsTruthy (fieldOf e "id") && jsTruthy (fieldOf e "content")) := by
  cases e with
  | null => exact absurd rfl h
  | bool b => simp [entryValid, jsGetField, fieldOf, jsTruthy, except_bind_ok, except_pure_eq]
  | num n => simp [entryValid, jsGetField, fieldOf, jsTruthy, except_bind_ok, except_pure_eq]
  | str s => simp [entryValid, jsGetField, fieldOf, jsTruthy, except_bind_ok, except_pure_eq]
  | arr xs => simp [entryValid, jsGetField, fieldOf, jsTruthy, except_bind_ok, except_pure_eq]
  | obj fs =>
    cases hid : jsTruthy (fieldOf (Json.obj fs) "id") with
    | false => simp [entryValid, jsGetField, hid, except_bind_ok, except_pure_eq]
    | true => simp [entryValid, jsGetField, hid, except_bind_ok, except_pure_eq]

lemma entryValid_invalid (e : Json)
    (h : ¬(jsTruthy (fieldOf e "id") = true ∧ jsTruthy (fieldOf e "content") = true)) :
    entryValid e = .error .typeErr ∨ entryValid e = .ok false := by
  by_cases hn : e = Json.null
  · subst hn; exact Or.inl rfl
  · refine Or.inr ?_
    rw [entryValid_nonnull e hn]
    cases hid : jsTruthy (fieldOf e "id") with
    | false => simp [hid]
    | true =>
      cases hc : jsTruthy (fieldOf e "content") with
      | false => simp [hc]
      | true => exact absurd ⟨hid, hc⟩ h

lemma filterValid_none_valid (es : List Json)
    (h : ∀ e ∈ es, ¬(jsTruthy (fieldOf e "id") = true ∧ jsTruthy (fieldOf e "content") = true)) :
    (∃ er, filterValid es = .error er) ∨ filterValid es = .ok [] := by
  induction es with
  | nil => exact Or.inr rfl
  | cons e rest ih =>
    rcases entryValid_invalid e (h e (by simp)) with he | he
    · exact Or.inl ⟨ImpErr.typeErr, by simp [filterValid, he, except_bind_error]⟩
    · rcases ih (fun x hx => h x (by simp [hx])) with ⟨er, hr⟩ | hr
      · exact Or.inl ⟨er, by simp [filterValid, he, hr, except_bind_ok]⟩
      · exact Or.inr (by simp [filterValid, he, hr, except_bind_ok])

/-- C3: `importData` throws on malformed input (`JSON.parse` fails), on a
parsed value that is not an array, and on a non-empty array in which no
entry has both a truthy `id` and a truthy `content`; in every such
failing run both storage slots are left exactly as they were (no snapshot
is taken and nothing is persisted). -/
theorem importData_failure_keeps_store (now : Int) (raw : Option Json) (st : Store)
    (h : raw = none ∨
         (∃ j, raw = some j ∧ j.isArr = false) ∨
         (∃ es, raw = some (.arr es) ∧ es ≠ [] ∧
            ∀ e ∈ es, ¬(jsTruthy (fieldOf e "id") = true ∧
                        jsTruthy (fieldOf e "content") = true))) :
    (importData now raw st).1 = st ∧ ∃ er, (importData now raw st).2 = .error er := by
  rcases h with rfl | ⟨j, rfl, hj⟩ | ⟨es, rfl, hne, hall⟩
  · exact ⟨rfl, ImpErr.parseFailure, rfl⟩
  · cases j with
    | arr xs => exact absurd hj (by simp [Json.isArr])
    | null => exact ⟨rfl, ImpErr.notArray, rfl⟩
    | bool b => exact ⟨rfl, ImpErr.notArray, rfl⟩
    | num n => exact ⟨rfl, ImpErr.notArray, rfl⟩
    | str s => exact ⟨rfl, ImpErr.notArray, rfl⟩
    | obj fs => exact ⟨rfl, ImpErr.notArray, rfl⟩
  · have hlen : es.length > 0 := List.length_pos.mpr hne
    rcases filterValid_none_valid es hall with ⟨er, her⟩ | hok
    · constructor
      · simp [importData, her]
      · exact ⟨er, by simp [importData, her]⟩
    · constructor
      · simp [importData, hok, hlen]
      · exact ⟨ImpErr.noValidPrompts, by simp [importData, hok, hlen]⟩

/-- Witness for C3 at concrete inputs: malformed text, the non-array
payload from the spec's example, and a singleton array whose only entry
has a falsy `id`. -/
theorem importData_failure_keeps_store_witness :
    ((importData 0 none ⟨some (.coll [rA]), some (.coll [rB]), false⟩).1
        = ⟨some (.coll [rA]), some (.coll [rB]), false⟩ ∧
      ∃ er, (importData 0 none ⟨some (.coll [rA]), some (.coll [rB]), false⟩).2
        = .error er) ∧
    ((importData 0 (some (.obj [("a", .num 1)]))
        ⟨some (.coll [rA]), some (.coll [rB]), false⟩).1
        = ⟨some (.coll [rA]), some (.coll [rB]), false⟩ ∧
      ∃ er, (importData 0 (some (.obj [("a", .num 1)]))
        ⟨some (.coll [rA]), some (.coll [rB]), false⟩).2 = .error er) ∧
    ((importData 0 (some (.arr [.obj [("id", .str "")]]))
        ⟨some (.coll [rA]), some (.coll [rB]), false⟩).1
        = ⟨some (.coll [rA]), some (.coll [rB]), false⟩ ∧
      ∃ er, (importData 0 (some (.arr [.obj [("id", .str "")]]))
        ⟨some (.coll [rA]), some (.coll [rB]), false⟩).2 = .error er) := by
  refine ⟨?_, ?_, ?_⟩
  · exact importData_failure_keeps_store 0 none _ (Or.inl rfl)
  · exact importData_failure_keeps_store 0 _ _ (Or.inr (Or.inl ⟨_, rfl, rfl⟩))
  · refine importData_failure_keeps_store 0 _ _
      (Or.inr (Or.inr ⟨_, rfl, List.cons_ne_nil _ _, ?_⟩))
    intro e he
    rw [List.mem_singleton] at he
    subst he
    decide

lemma pmapHas_nil (k : String) : pmapHas [] k = false := rfl

lemma pmapHas_append (m l : PMap) (k : String) :
    pmapHas (m ++ l) k = (pmapHas m k || pmapHas l k) := by
  simp [pmapHas, List.any_append]

lemma pmapHas_map_replace (m : PMap) (k : String) (v : PromptData) (j : String) :
    pmapHas (m.map (fun kv => if kv.1 = k then (k, v) else kv)) j = pmapHas m j := by
  unfold pmapHas
  rw [List.any_map]
  congr 1
  funext kv
  by_cases hkv : kv.1 = k
  · simp [Function.comp, hkv]
  · simp [Function.comp, hkv]

lemma pmapHas_set_ne (m : PMap) (k : String) (v : PromptData) (j : String)
    (hne : j ≠ k) : pmapHas (pmapSet m k v) j = pmapHas m j := by
  unfold pmapSet
  by_cases hk : pmapHas m k
  · simp only [hk, if_true]
    exact pmapHas_map_replace m k v j
  · simp only [hk, Bool.false_eq_true, if_false]
    rw [pmapHas_append]
    have : pmapHas [(k, v)] j = false := by
      simp [pmapHas]
      exact fun h => hne h.symm
    simp [this]

lemma pmapSet_append_of_not_has (m : PMap) (k : String) (v : PromptData)
    (h : pmapHas m k = false) : pmapSet m k v = m ++ [(k, v)] := by
  simp [pmapSet, h]

lemma pmapOfPrompts_fold :
    ∀ (ps : List PromptData) (m : PMap),
      ps.Pairwise (fun a b => a.id ≠ b.id) →
      (∀ p ∈ ps, pmapHas m p.id = false) →
      ps.foldl (fun acc p => pmapSet acc p.id p) m = m ++ ps.map (fun p => (p.id, p)) := by
  intro ps
  induction ps with
  | nil => intro m _ _; simp
  | cons p rest ih =>
    intro m hpair hfresh
    have hp : pmapHas m p.id = false := hfresh p (by simp)
    have hstep : pmapSet m p.id p = m ++ [(p.id, p)] :=
      pmapSet_append_of_not_has m p.id p hp
    have hrest : ∀ q ∈ rest, pmapHas (m ++ [(p.id, p)]) q.id = false := by
      intro q hq
      rw [pmapHas_append]
      have h1 : pmapHas m q.id = false := hfresh q (by simp [hq])
      have h2 : pmapHas [(p.id, p)] q.id = false := by
        have hpq := (List.pairwise_cons.mp hpair).1 q hq
        simp [pmapHas]
        exact hpq
      simp [h1, h2]
    calc (p :: rest).foldl (fun acc q => pmapSet acc q.id q) m
        = rest.foldl (fun acc q => pmapSet acc q.id q) (m ++ [(p.id, p)]) := by
          simp [List.foldl_cons, hstep]
      _ = (m ++ [(p.id, p)]) ++ rest.map (fun q => (q.id, q)) :=
          ih (m ++ [(p.id, p)]) (List.pairwise_cons.mp hpair).2 hrest
      _ = m ++ (p :: rest).map (fun q => (q.id, q)) := by
          simp [List.append_assoc]

lemma pmapOfPrompts_eq (ps : List PromptData)
    (h : ps.Pairwise (fun a b => a.id ≠ b.id)) :
    pmapOfPrompts ps = ps.map (fun p => (p.id, p)) := by
  have := pmapOfPrompts_fold ps [] h (fun p _ => rfl)
  simpa [pmapOfPrompts] using this

lemma snd_pair_map (ps : List PromptData) :
    (ps.map (fun p => (p.id, p))).map Prod.snd = ps := by
  induction ps with
  | nil => rfl
  | cons p t ih => simp [ih]

lemma getPrompts_createBackup (st : Store) :
    getPrompts (createBackup st) = getPrompts st := by
  obtain ⟨p, b, r⟩ := st
  cases r
  · cases p with
    | none => rfl
    | some bl => rfl
  · rfl

/-- C9 counterexample: with two stored records sharing the id `d`, the
`Map` built by `importData` deduplicates them, so importing `[]` persists
and returns a one-element collection instead of exactly the two
previously stored records. -/
theorem import_empty_array_counterexample :
    (getPrompts ⟨some (.coll [rDup1, rDup2]), none, false⟩).length = 2 ∧
    (importData 0 (some (.arr []))
        ⟨some (.coll [rDup1, rDup2]), none, false⟩).2 = .ok ([rDup2], ⟨0, 0⟩) := by
  decide

/-- C9 (amended): for every store state whose listed collection has
pairwise-distinct ids, `importData` on the empty JSON array `[]` does not
throw: it returns stats zero/zero and re-persists the previously listed
records, reordered descending by `updatedAt`. -/
theorem importData_empty_array (now : Int) (st : Store)
    (hdist : (getPrompts st).Pairwise (fun a b => a.id ≠ b.id)) :
    importData now (some (.arr [])) st =
      ({ createBackup st with
          primary := some (.coll (List.insertionSort updDesc (getPrompts st))) },
       .ok (List.insertionSort updDesc (getPrompts st), ⟨0, 0⟩)) ∧
    (List.insertionSort updDesc (getPrompts st)).Perm (getPrompts st) ∧
    (List.insertionSort updDesc (getPrompts st)).Pairwise
      (fun a b => b.updatedAt ≤ a.updatedAt) := by
  refine ⟨?_, List.perm_insertionSort updDesc (getPrompts st), ?_⟩
  · have base : importData now (some (.arr [])) st =
        ({ createBackup st with
            primary := some (.coll (List.insertionSort updDesc
              ((pmapOfPrompts (getPrompts (createBackup st))).map Prod.snd))) },
         .ok (List.insertionSort updDesc
              ((pmapOfPrompts (getPrompts (createBackup st))).map Prod.snd),
              ⟨0, 0⟩)) := rfl
    rw [base, getPrompts_createBackup, pmapOfPrompts_eq _ hdist, snd_pair_map]
  · exact List.sorted_insertionSort updDesc (getPrompts st)

/-- Witness for C9 at a concrete two-record store with distinct ids. -/
theorem importData_empty_array_witness :
    importData 0 (some (.arr [])) ⟨some (.coll [rA, rB]), none, false⟩ =
      (⟨some (.coll [rB, rA]), some (.coll [rA, rB]), false⟩,
       .ok ([rB, rA], ⟨0, 0⟩)) := by
  have h := (importData_empty_array 0 ⟨some (.coll [rA, rB]), none, false⟩
    (by decide)).1
  exact h.trans (by decide)

lemma importLoop_eq (now : Int) :
    ∀ (es : List Json) (sps : List PromptData),
      es.map (safePrompt now) = sps.map some →
      sps.Pairwise (fun a b => a.id ≠ b.id) →
      ∀ (m : PMap) (a u : Nat),
        importLoop now es m a u =
          some (sps.foldl (fun acc sp => pmapSet acc sp.id sp) m,
                a + sps.countP (fun sp => !(pmapHas m sp.id)),
                u + sps.countP (fun sp => pmapHas m sp.id)) := by
  intro es
  induction es with
  | nil =>
    intro sps hsp _ m a u
    have hnil : sps = [] := by
      cases sps with
      | nil => rfl
      | cons x xs => simp at hsp
    subst hnil
    simp [importLoop]
  | cons e rest ih =>
    intro sps hsp hpair m a u
    cases sps with
    | nil => simp at hsp
    | cons sp sps2 =>
      simp only [List.map_cons] at hsp
      injection hsp with he hrest
      have hc1 : sps2.countP (fun q => !(pmapHas (pmapSet m sp.id sp) q.id)) =
          sps2.countP (fun q => !(pmapHas m q.id)) := by
        refine List.countP_congr ?_
        intro x hx
        have hne : x.id ≠ sp.id :=
          fun hh => ((List.pairwise_cons.mp hpair).1 x hx) hh.symm
        rw [pmapHas_set_ne m sp.id sp x.id hne]
      have hc2 : sps2.countP (fun q => pmapHas (pmapSet m sp.id sp) q.id) =
          sps2.countP (fun q => pmapHas m q.id) := by
        refine List.countP_congr ?_
        intro x hx
        have hne : x.id ≠ sp.id :=
          fun hh => ((List.pairwise_cons.mp hpair).1 x hx) hh.symm
        rw [pmapHas_set_ne m sp.id sp x.id hne]
      by_cases hk : pmapHas m sp.id = true
      · have step : importLoop now (e :: rest) m a u =
            importLoop now rest (pmapSet m sp.id sp) a (u + 1) := by
          simp [importLoop, he, hk]
        rw [step, ih sps2 hrest (List.pairwise_cons.mp hpair).2 (pmapSet m sp.id sp) a (u + 1)]
        refine congrArg some ?_
        refine congrArg₂ Prod.mk rfl ?_
        refine congrArg₂ Prod.mk ?_ ?_
        · rw [hc1, List.countP_cons]
          simp [hk]
        · rw [hc2, List.countP_cons]
          simp [hk]
          omega
      · have hk' : pmapHas m sp.id = false := by
          simpa using hk
        have step : importLoop now (e :: rest) m a u =
            importLoop now rest (pmapSet m sp.id sp) (a + 1) u := by
          simp [importLoop, he, hk']
        rw [step, ih sps2 hrest (List.pairwise_cons.mp hpair).2 (pmapSet m sp.id sp) (a + 1) u]
        refine congrArg some ?_
        refine congrArg₂ Prod.mk rfl ?_
        refine congrArg₂ Prod.mk ?_ ?_
        · rw [hc1, List.countP_cons]
          simp [hk']
          omega
        · rw [hc2, List.countP_cons]
          simp [hk']

lemma foldl_pmapSet_eq :
    ∀ (sps : List PromptData) (m : PMap),
      sps.Pairwise (fun a b => a.id ≠ b.id) →
      sps.foldl (fun acc sp => pmapSet acc sp.id sp) m =
        m.map (fun kv =>
          match sps.find? (fun sp => sp.id = kv.1) with
          | some sp => (kv.1, sp)
          | none => kv)
        ++ (sps.filter (fun sp => !(pmapHas m sp.id))).map (fun sp => (sp.id, sp)) := by
  intro sps
  induction sps with
  | nil =>
    intro m _
    simp [List.find?]
  | cons sp sps2 ih =>
    intro m hpair
    have hhead : ∀ x ∈ sps2, sp.id ≠ x.id := (List.pairwise_cons.mp hpair).1
    have hfind2 : sps2.find? (fun q => q.id = sp.id) = none := by
      rw [List.find?_eq_none]
      intro x hx
      simp only [decide_eq_true_eq]
      exact fun hh => (hhead x hx) hh.symm
    by_cases hk : pmapHas m sp.id = true
    · have hfold : (sp :: sps2).foldl (fun acc q => pmapSet acc q.id q) m =
          sps2.foldl (fun acc q => pmapSet acc q.id q)
            (m.map (fun kv => if kv.1 = sp.id then (sp.id, sp) else kv)) := by
        simp [List.foldl_cons, pmapSet, hk]
      rw [hfold, ih _ (List.pairwise_cons.mp hpair).2]
      have hmap : (m.map (fun kv => if kv.1 = sp.id then (sp.id, sp) else kv)).map
            (fun kv =>
              match sps2.find? (fun q => q.id = kv.1) with
              | some q => (kv.1, q)
              | none => kv) =
          m.map (fun kv =>
            match (sp :: sps2).find? (fun q => q.id = kv.1) with
            | some q => (kv.1, q)
            | none => kv) := by
        rw [List.map_map]
        refine List.map_congr_left ?_
        intro kv _
        by_cases hkv : kv.1 = sp.id
        · have hd : decide ((sp.id : String) = kv.1) = true := by simp [hkv]
          simp only [Function.comp, if_pos hkv, hfind2, List.find?, hd]
          simp [hkv]
        · have hd : decide ((sp.id : String) = kv.1) = false := by
            simp only [decide_eq_false_iff_not]
            exact fun hh => hkv hh.symm
          simp only [Function.comp, if_neg hkv, List.find?, hd]
      have hfilter : sps2.filter (fun q =>
            !(pmapHas (m.map (fun kv => if kv.1 = sp.id then (sp.id, sp) else kv)) q.id)) =
          sps2.filter (fun q => !(pmapHas m q.id)) := by
        refine List.filter_congr ?_
        intro x _
        rw [pmapHas_map_replace]
      have hfilter2 : (sp :: sps2).filter (fun q => !(pmapHas m q.id)) =
          sps2.filter (fun q => !(pmapHas m q.id)) := by
        simp [List.filter_cons, hk]
      rw [hmap, hfilter, hfilter2]
    · have hk' : pmapHas m sp.id = false := by simpa using hk
      have hfold : (sp :: sps2).foldl (fun acc q => pmapSet acc q.id q) m =
          sps2.foldl (fun acc q => pmapSet acc q.id q) (m ++ [(sp.id, sp)]) := by
        simp [List.foldl_cons, pmapSet, hk']
      rw [hfold, ih _ (List.pairwise_cons.mp hpair).2]
      have hmkey : ∀ kv ∈ m, kv.1 ≠ sp.id := by
        intro kv hkv hh
        have : pmapHas m sp.id = true := by
          unfold pmapHas
          rw [List.any_eq_true]
          exact ⟨kv, hkv, by simp [hh]⟩
        rw [this] at hk'
        cases hk'
      have hmap : (m ++ [(sp.id, sp)]).map
            (fun kv =>
              match sps2.find? (fun q => q.id = kv.1) with
              | some q => (kv.1, q)
              | none => kv) =
          m.map (fun kv =>
            match (sp :: sps2).find? (fun q => q.id = kv.1) with
            | some q => (kv.1, q)
            | none => kv) ++ [(sp.id, sp)] := by
        rw [List.map_append]
        refine congrArg₂ (· ++ ·) ?_ ?_
        · refine List.map_congr_left ?_
          intro kv hkv
          have hne : ¬((sp.id : String) = kv.1) :=
            fun hh => (hmkey kv hkv) hh.symm
          simp [List.find?_cons, hne]
        · simp [hfind2]
      have hfilter : sps2.filter (fun q => !(pmapHas (m ++ [(sp.id, sp)]) q.id)) =
          sps2.filter (fun q => !(pmapHas m q.id)) := by
        refine List.filter_congr ?_
        intro x hx
        rw [pmapHas_append]
        have : pmapHas [(sp.id, sp)] x.id = false := by
          simp [pmapHas]
          exact hhead x hx
        simp [this]
      have hfilter2 : (sp :: sps2).filter (fun q => !(pmapHas m q.id)) =
          sp :: sps2.filter (fun q => !(pmapHas m q.id)) := by
        simp [List.filter_cons, hk']
      rw [hmap, hfilter, hfilter2]
      simp [List.append_assoc]

lemma filterValid_all_valid (es : List Json)
    (h : ∀ e ∈ es, jsTruthy (fieldOf e "id") = true ∧
                   jsTruthy (fieldOf e "content") = true) :
    filterValid es = .ok es := by
  induction es with
  | nil => rfl
  | cons e rest ih =>
    obtain ⟨hid, hc⟩ := h e (by simp)
    have hnn : e ≠ Json.null := by
      intro hh
      subst hh
      simp [fieldOf, jsTruthy] at hid
    have he : entryValid e = .ok true := by
      rw [entryValid_nonnull e hnn, hid, hc]
      rfl
    have hr := ih (fun x hx => h x (by simp [hx]))
    simp [filterValid, he, hr, except_bind_ok, except_pure_eq]

lemma pmapHas_ofPairs (cur : List PromptData) (k : String) :
    pmapHas (cur.map (fun p => (p.id, p))) k = cur.any (fun p => p.id = k) := by
  induction cur with
  | nil => rfl
  | cons p t ih => simp [pmapHas, List.any_cons] at ih ⊢; rw [ih]


lemma map_snd_replace (cur sps : List PromptData) :
    (List.map
      (fun (kv : String × PromptData) =>
        match sps.find? (fun sp => sp.id = kv.1) with
        | some sp => (kv.1, sp)
        | none => kv)
      (List.map (fun (p : PromptData) => (p.id, p)) cur)).map Prod.snd =
    List.map
      (fun (p : PromptData) =>
        match sps.find? (fun sp => sp.id = p.id) with
        | some sp => sp
        | none => p)
      cur := by
  induction cur with
  | nil => rfl
  | cons p t ih =>
    simp only [List.map_cons]
    refine congrArg₂ List.cons ?_ ih
    cases hfind : sps.find? (fun sp => sp.id = p.id) with
    | none => simp [hfind]
    | some q => simp [hfind]

lemma importData_success (now : Int) (b : Option Blob) (cur : List PromptData)
    (es : List Json) (sps : List PromptData)
    (hcur : cur.Pairwise (fun a b => a.id ≠ b.id))
    (hval : ∀ e ∈ es, jsTruthy (fieldOf e "id") = true ∧
                      jsTruthy (fieldOf e "content") = true)
    (hsp : es.map (safePrompt now) = sps.map some)
    (hdist : sps.Pairwise (fun a b => a.id ≠ b.id)) :
    importData now (some (.arr es)) ⟨some (.coll cur), b, false⟩ =
      (⟨some (.coll (List.insertionSort updDesc
          (List.map
            (fun (p : PromptData) =>
              match sps.find? (fun sp => sp.id = p.id) with
              | some sp => sp
              | none => p)
            cur
           ++ sps.filter (fun sp => !(cur.any (fun p => p.id = sp.id)))))),
        some (.coll cur), false⟩,
       .ok (List.insertionSort updDesc
          (List.map
            (fun (p : PromptData) =>
              match sps.find? (fun sp => sp.id = p.id) with
              | some sp => sp
              | none => p)
            cur
           ++ sps.filter (fun sp => !(cur.any (fun p => p.id = sp.id)))),
        ⟨sps.countP (fun sp => !(cur.any (fun p => p.id = sp.id))),
         sps.countP (fun sp => cur.any (fun p => p.id = sp.id))⟩)) := by
  have hfv : filterValid es = .ok es := filterValid_all_valid es hval
  have hif : ¬(es.length = 0 ∧ es.length > 0) := by omega
  have hcb : createBackup ⟨some (.coll cur), b, false⟩ =
      ⟨some (.coll cur), some (.coll cur), false⟩ := rfl
  have hgp : getPrompts ⟨some (.coll cur), some (.coll cur), false⟩ = cur := rfl
  have hm0 : pmapOfPrompts cur = cur.map (fun p => (p.id, p)) :=
    pmapOfPrompts_eq cur hcur
  have hloop := importLoop_eq now es sps hsp hdist
    (cur.map (fun p => (p.id, p))) 0 0
  have hfold := foldl_pmapSet_eq sps (cur.map (fun p => (p.id, p))) hdist
  have hfilterpred : sps.filter
        (fun sp => !(pmapHas (cur.map (fun p => (p.id, p))) sp.id)) =
      sps.filter (fun sp => !(cur.any (fun p => p.id = sp.id))) := by
    refine List.filter_congr ?_
    intro x _
    rw [pmapHas_ofPairs]
  have hcount1 : sps.countP (fun sp =>
        !(pmapHas (cur.map (fun p => (p.id, p))) sp.id)) =
      sps.countP (fun sp => !(cur.any (fun p => p.id = sp.id))) := by
    refine List.countP_congr ?_
    intro x _
    rw [pmapHas_ofPairs]
  have hcount2 : sps.countP (fun sp =>
        pmapHas (cur.map (fun p => (p.id, p))) sp.id) =
      sps.countP (fun sp => cur.any (fun p => p.id = sp.id)) := by
    refine List.countP_congr ?_
    intro x _
    rw [pmapHas_ofPairs]
  simp only [importData, hfv, if_neg hif, hcb, hgp, hm0, hloop, Nat.zero_add]
  rw [hfold, List.map_append, map_snd_replace, snd_pair_map, hfilterpred,
    hcount1, hcount2]

/-- C4: on a valid import (all entries shaped, ids pairwise distinct, a
store whose collection has pairwise-distinct ids), `importData` counts an
entry with a stored id once in `updated` and an entry with a fresh id once
in `added`, and returns and persists exactly the merged records — every
matched stored record fully overwritten by its normalized imported entry
`safePrompt` (which fills the documented defaults), every unmatched entry
appended — reordered descending by `updatedAt`. -/
theorem importData_merge_spec (now : Int) (b : Option Blob) (cur : List PromptData)
    (es : List Json) (sps : List PromptData)
    (hcur : cur.Pairwise (fun a c => a.id ≠ c.id))
    (hval : ∀ e ∈ es, jsTruthy (fieldOf e "id") = true ∧
                      jsTruthy (fieldOf e "content") = true)
    (hsp : es.map (safePrompt now) = sps.map some)
    (hdist : sps.Pairwise (fun a c => a.id ≠ c.id)) :
    ∃ out,
      importData now (some (.arr es)) ⟨some (.coll cur), b, false⟩ =
        (⟨some (.coll out), some (.coll cur), false⟩,
         .ok (out,
           ⟨sps.countP (fun sp => !(cur.any (fun p => p.id = sp.id))),
            sps.countP (fun sp => cur.any (fun p => p.id = sp.id))⟩)) ∧
      out.Perm
        (List.map (fun (p : PromptData) =>
            match sps.find? (fun sp => sp.id = p.id) with
            | some sp => sp
            | none => p) cur
         ++ sps.filter (fun sp => !(cur.any (fun p => p.id = sp.id)))) ∧
      out.Pairwise (fun a c => c.updatedAt ≤ a.updatedAt) :=
  ⟨_, importData_success now b cur es sps hcur hval hsp hdist,
   List.perm_insertionSort updDesc _, List.sorted_insertionSort updDesc _⟩

/-- Witness for C4: importing `[{"id":"x","content":"hello"}]` at time 5
into an empty store adds one record with every default filled. -/
theorem importData_merge_spec_witness :
    importData 5 (some (.arr [entryX])) ⟨some (.coll []), none, false⟩ =
      (⟨some (.coll [spX]), some (.coll []), false⟩, .ok ([spX], ⟨1, 0⟩)) ∧
    spX.title = "Untitled Prompt" ∧ spX.tags = [] := by
  obtain ⟨out, h1, h2, h3⟩ := importData_merge_spec 5 none [] [entryX] [spX]
    (by decide) (by intro e he; rw [List.mem_singleton] at he; subst he; decide)
    (by decide) (by decide)
  have hout : out = [spX] := List.perm_singleton.mp (by simpa using h2)
  subst hout
  exact ⟨h1.trans (by decide), rfl, rfl⟩

/-- C4 counterexample: importing the same fresh-id entry twice into an
empty store yields stats added 1, updated 1 — the second entry's id does
not exist in the store, yet it is counted as updated (it hits the merge
map, not the store), so the per-entry added/updated attribution of the
claim fails without an entry-id-distinctness assumption. -/
theorem import_duplicate_entry_counterexample :
    importData 5 (some (.arr [entryX, entryX])) ⟨some (.coll []), none, false⟩ =
      (⟨some (.coll [spX]), some (.coll []), false⟩, .ok ([spX], ⟨1, 1⟩)) := by
  decide

lemma allStrs_map_str (xs : List String) :
    allStrs (xs.map Json.str) = some xs := by
  induction xs with
  | nil => rfl
  | cons x t ih => simp [allStrs, ih]

lemma strArrOrEmpty_map_str (xs : List String) :
    strArrOrEmpty (some (.arr (xs.map Json.str))) = some xs := by
  simp [strArrOrEmpty, allStrs_map_str]

lemma promptToJson_valid (p : PromptData) (hid : p.id ≠ "") (hc : p.content ≠ "") :
    jsTruthy (fieldOf (promptToJson p) "id") = true ∧
    jsTruthy (fieldOf (promptToJson p) "content") = true := by
  obtain ⟨i, t, c, bd, tg, uc, sl, ca, ua⟩ := p
  simp only at hid hc
  cases uc <;> cases sl <;>
    simp [promptToJson, fieldOf, lookupField, jsTruthy, hid, hc]

lemma safePrompt_promptToJson (now : Int) (p : PromptData)
    (ht : p.title ≠ "") (hca : p.createdAt ≠ 0) (hua : p.updatedAt ≠ 0)
    (huc : p.useCases.isSome) :
    safePrompt now (promptToJson p) = some p := by
  obtain ⟨i, t, c, bd, tg, uc, sl, ca, ua⟩ := p
  simp only at ht hca hua huc
  cases uc with
  | none => simp at huc
  | some us =>
    by_cases hbd : bd = ""
    · subst hbd
      cases sl with
      | none =>
        simp [safePrompt, promptToJson, fieldOf, lookupField, reqStr,
          strOrDefault, strArrOrEmpty_map_str, linkOf, timeOrNow, jsTruthy,
          ht, hca, hua]
      | some s =>
        simp [safePrompt, promptToJson, fieldOf, lookupField, reqStr,
          strOrDefault, strArrOrEmpty_map_str, linkOf, timeOrNow, jsTruthy,
          ht, hca, hua]
    · cases sl with
      | none =>
        simp [safePrompt, promptToJson, fieldOf, lookupField, reqStr,
          strOrDefault, strArrOrEmpty_map_str, linkOf, timeOrNow, jsTruthy,
          ht, hca, hua, hbd]
      | some s =>
        simp [safePrompt, promptToJson, fieldOf, lookupField, reqStr,
          strOrDefault, strArrOrEmpty_map_str, linkOf, timeOrNow, jsTruthy,
          ht, hca, hua, hbd]

lemma find?_self_of_distinct (ps : List PromptData)
    (h : ps.Pairwise (fun a c => a.id ≠ c.id)) :
    ∀ p ∈ ps, ps.find? (fun sp => sp.id = p.id) = some p := by
  induction ps with
  | nil => intro p hp; cases hp
  | cons q t ih =>
    intro p hp
    rcases List.mem_cons.mp hp with rfl | hp2
    · simp [List.find?]
    · have hq : q.id ≠ p.id := (List.pairwise_cons.mp h).1 p hp2
      have hd : decide (q.id = p.id) = false := by simp [hq]
      rw [List.find?, hd]
      exact ih (List.pairwise_cons.mp h).2 p hp2

/-- C5 counterexample: the record `rT` has a truthy id and content but an
empty (falsy) `title`; exporting and re-importing it yields the right
stats but a record with `title` replaced by the default, so the original
content is not reproduced. -/
theorem export_import_roundtrip_counterexample :
    rT.title = "" ∧ rT.id ≠ "" ∧ rT.content ≠ "" ∧
    (importData 9 (some (exportData ⟨some (.coll [rT]), none, false⟩))
        ⟨some (.coll [rT]), none, false⟩).2 =
      .ok ([⟨"t", "Untitled Prompt", "body t", "", [], some [], none, 1, 1⟩],
           ⟨0, 1⟩) ∧
    (⟨"t", "Untitled Prompt", "body t", "", [], some [], none, 1, 1⟩ : PromptData)
      ≠ rT := by
  decide

/-- C5 (amended): for a stored collection with pairwise-distinct ids in
which every record has truthy `id`, `content` and `title`, non-zero
timestamps and a present `useCases` field, exporting with `exportData`
and importing the result back into the same store succeeds with `updated`
equal to the collection size and `added` zero, and reproduces the
original records up to the descending-`updatedAt` reordering. -/
theorem export_import_roundtrip (now : Int) (b : Option Blob) (ps : List PromptData)
    (hdist : ps.Pairwise (fun a c => a.id ≠ c.id))
    (hok : ∀ p ∈ ps, p.id ≠ "" ∧ p.content ≠ "" ∧ p.title ≠ "" ∧
            p.createdAt ≠ 0 ∧ p.updatedAt ≠ 0 ∧ p.useCases.isSome) :
    ∃ out,
      importData now (some (exportData ⟨some (.coll ps), b, false⟩))
          ⟨some (.coll ps), b, false⟩ =
        (⟨some (.coll out), some (.coll ps), false⟩, .ok (out, ⟨0, ps.length⟩)) ∧
      out.Perm ps ∧
      out.Pairwise (fun a c => c.updatedAt ≤ a.updatedAt) := by
  have hes : (ps.map promptToJson).map (safePrompt now) = ps.map some := by
    rw [List.map_map]
    refine List.map_congr_left ?_
    intro p hp
    obtain ⟨_, _, h3, h4, h5, h6⟩ := hok p hp
    exact safePrompt_promptToJson now p h3 h4 h5 h6
  have hval2 : ∀ e ∈ ps.map promptToJson,
      jsTruthy (fieldOf e "id") = true ∧
      jsTruthy (fieldOf e "content") = true := by
    intro e he
    obtain ⟨p, hp, rfl⟩ := List.mem_map.mp he
    obtain ⟨h1, h2, _⟩ := hok p hp
    exact promptToJson_valid p h1 h2
  have hmain := importData_success now b ps (ps.map promptToJson) ps
    hdist hval2 hes hdist
  have hmap : List.map (fun (p : PromptData) =>
      match ps.find? (fun sp => sp.id = p.id) with
      | some sp => sp
      | none => p) ps = ps := by
    have hpt : ∀ p ∈ ps,
        (match ps.find? (fun sp => sp.id = p.id) with
         | some sp => sp
         | none => p) = p := by
      intro p hp
      rw [find?_self_of_distinct ps hdist p hp]
    calc List.map (fun (p : PromptData) =>
          match ps.find? (fun sp => sp.id = p.id) with
          | some sp => sp
          | none => p) ps
        = ps.map (fun p => p) := List.map_congr_left hpt
      _ = ps := List.map_id' ps
  have hany : ∀ p ∈ ps, ps.any (fun q => q.id = p.id) = true := by
    intro p hp
    rw [List.any_eq_true]
    exact ⟨p, hp, by simp⟩
  have hfilt : ps.filter (fun sp => !(ps.any (fun p => p.id = sp.id))) = [] := by
    rw [List.filter_eq_nil_iff]
    intro a ha
    simp only [Bool.not_eq_true', Bool.not_eq_false]
    exact hany a ha
  have hcadd : ps.countP (fun sp => !(ps.any (fun p => p.id = sp.id))) = 0 := by
    rw [List.countP_eq_zero]
    intro a ha
    simp only [Bool.not_eq_true', Bool.not_eq_false]
    exact hany a ha
  have hcupd : ps.countP (fun sp => ps.any (fun p => p.id = sp.id)) = ps.length := by
    rw [List.countP_eq_length]
    intro a ha
    exact hany a ha
  rw [hmap, hfilt, hcadd, hcupd, List.append_nil] at hmain
  have hexp : exportData ⟨some (.coll ps), b, false⟩ = .arr (ps.map promptToJson) := rfl
  rw [hexp]
  exact ⟨_, hmain, List.perm_insertionSort updDesc ps,
    List.sorted_insertionSort updDesc ps⟩

/-- Witness for C5 at a one-record store satisfying every condition. -/
theorem export_import_roundtrip_witness :
    importData 3
        (some (exportData ⟨some (.coll
          [⟨"w", "W", "cw", "", [], some ["u"], some "s", 7, 7⟩]), none, false⟩))
        ⟨some (.coll [⟨"w", "W", "cw", "", [], some ["u"], some "s", 7, 7⟩]),
          none, false⟩ =
      (⟨some (.coll [⟨"w", "W", "cw", "", [], some ["u"], some "s", 7, 7⟩]),
         some (.coll [⟨"w", "W", "cw", "", [], some ["u"], some "s", 7, 7⟩]),
         false⟩,
       .ok ([⟨"w", "W", "cw", "", [], some ["u"], some "s", 7, 7⟩], ⟨0, 1⟩)) := by
  obtain ⟨out, h1, h2, h3⟩ := export_import_roundtrip 3 none
    [⟨"w", "W", "cw", "", [], some ["u"], some "s", 7, 7⟩] (by decide)
    (by intro p hp; rw [List.mem_singleton] at hp; subst hp; decide)
  have hout : out = [⟨"w", "W", "cw", "", [], some ["u"], some "s", 7, 7⟩] :=
    List.perm_singleton.mp h2
  subst hout
  exact h1.trans (by decide)

lemma readQuotedAux_dq (t : List Char) :
    readQuotedAux (dqChars t ++ ['"']) = some t := by
  induction t with
  | nil => rfl
  | cons c cs ih =>
    by_cases hc : c = '"'
    · subst hc
      simp [dqChars, readQuotedAux, ih]
    · simp only [dqChars, if_neg hc]
      rw [readQuotedAux.eq_def]
      simp [hc, ih]

lemma quoteCell_data (s : String) :
    (quoteCell s).data = '"' :: (dqChars s.data ++ ['"']) := by
  have h1 : ("\"" : String).data = ['"'] := by decide
  simp [quoteCell, String.data_append, h1]

lemma readQuoted_quoteCell (s : String) :
    readQuoted (quoteCell s).data = some s.data := by
  rw [quoteCell_data]
  simp [readQuoted, readQuotedAux_dq]

lemma csvEscape_some (s : String) : csvEscape (some s) = quoteCell s := by
  by_cases h : s = ""
  · subst h; decide
  · simp [csvEscape, h, quoteCell]

lemma csvEscape_none : csvEscape none = quoteCell "" := by decide

lemma csvRow_eq (localeDate : Int → String) (p : PromptData) :
    csvRow localeDate p = csvSpecRow localeDate p := by
  have hnil : ("\n" : String).intercalate ([] : List String) = "" := rfl
  cases huc : p.useCases <;> cases hsl : p.sourceLink <;>
    simp [csvRow, csvSpecRow, csvEscape_some, csvEscape_none, useCasesCell,
      huc, hsl, Option.getD, hnil]

/-- C8 counterexample: the produced header row joins the seven column
names with plain commas (`headers.join(',')`), not with the comma-space
separators of the claim's literal header row. -/
theorem exportAsCsv_header_counterexample :
    exportAsCsv (fun _ => "") ⟨some (.coll []), none, false⟩ =
      "﻿" ++
        "Title,Prompt Content,Breakdown,Tags,Use Cases,Source Link,Created Date" ∧
    exportAsCsv (fun _ => "") ⟨some (.coll []), none, false⟩ ≠
      "﻿" ++
        "Title, Prompt Content, Breakdown, Tags, Use Cases, Source Link, Created Date" := by
  decide

/-- C8 (amended): `exportAsCsv` returns the UTF-8 byte-order marker,
then the header row of the seven column titles joined by commas, then
one row per record with every field double-quote-wrapped and internal
quotes doubled, tags joined with comma-space in one cell, useCases
joined with newlines in one cell, and `createdAt` rendered through the
locale date function; and every quoted cell parses back to the exact
original string under a compliant CSV quoted-cell reader. -/
theorem exportAsCsv_spec (localeDate : Int → String) (st : Store) :
    exportAsCsv localeDate st = csvSpec localeDate st ∧
    (exportAsCsv localeDate st).data.head? = some '﻿' ∧
    csvHeader =
      "Title,Prompt Content,Breakdown,Tags,Use Cases,Source Link,Created Date" ∧
    (∀ s : String, readQuoted (quoteCell s).data = some s.data) := by
  have hrow : (getPrompts st).map (csvRow localeDate) =
      (getPrompts st).map (csvSpecRow localeDate) :=
    List.map_congr_left (fun p _ => csvRow_eq localeDate p)
  have hhd : csvHeader = csvSpecHeader := by decide
  refine ⟨?_, ?_, by decide, fun s => readQuoted_quoteCell s⟩
  · simp only [exportAsCsv, csvSpec]
    rw [hrow, hhd]
  · have hbom : ("﻿" : String).data = ['﻿'] := by decide
    simp [exportAsCsv, String.data_append, hbom]
